import Mathlib

/-!
Verification of the feeddo feed-ingestion service.

The definitions below are a shallow embedding of the Go sources:
the heureka field validators (internal/pkg/heureka), the kafka
producer pool (cmd/feeddo/kafka), the metrics container
(cmd/feeddo/metrics), the per-feed runner and the periodic driver
(cmd/feeddo/main.go, current iteration), and the exit-code plumbing
in main/appRun.  Strings are modelled as lists of characters (the Go
code operates on bytes; every input of interest here is ASCII,
where the two coincide).  Decimal values (shopspring decimal) are
modelled as rationals: the package compares decimals by numeric
value, which is exactly what the rational carries.
-/

namespace Feeddo

/-! ## Price parsing: heureka.Price.UnmarshalText and shopspring decimal

Price.UnmarshalText removes ASCII spaces, replaces commas with dots,
and hands the result to decimal.UnmarshalText, which is
decimal.NewFromString (shopspring/decimal v1.2.0): an optional
scientific-notation suffix introduced by the first e or E (exponent
read by strconv.ParseInt with bitSize 32), the remainder split on
dots into at most two parts, the concatenation of the parts read by
big.Int.SetString in base 10, and a final int32 range check on the
resulting exponent. -/

/-- bytes.ReplaceAll(text, " ", "") of Price.UnmarshalText. -/
def removeSpaces (s : List Char) : List Char :=
  s.filter (fun c => c ≠ ' ')

/-- bytes.ReplaceAll(text, ",", ".") of Price.UnmarshalText. -/
def commasToDots (s : List Char) : List Char :=
  s.map (fun c => if c = ',' then '.' else c)

/-- Digit string read as a natural number, as big.Int.SetString does. -/
def digitsToNat (s : List Char) : Nat :=
  s.foldl (fun a c => a * 10 + (c.toNat - 48)) 0

/-- big.Int.SetString in base 10: optional sign followed by at least
one decimal digit. -/
def parseBigInt (s : List Char) : Option Int :=
  match s with
  | [] => none
  | c :: rest =>
    if c = '+' then
      if rest ≠ [] ∧ rest.all Char.isDigit then some (digitsToNat rest) else none
    else if c = '-' then
      if rest ≠ [] ∧ rest.all Char.isDigit then some (-(digitsToNat rest : Int)) else none
    else
      if (c :: rest).all Char.isDigit then some (digitsToNat (c :: rest)) else none

/-- Unsigned-digits half of strconv.ParseInt: at least one digit, all
characters digits, and the signed value must fit in int32. -/
def parseIntCore (digs : List Char) (neg : Bool) : Option Int :=
  if digs ≠ [] ∧ digs.all Char.isDigit then
    let v : Int := if neg then -(digitsToNat digs : Int) else (digitsToNat digs : Int)
    if -(2 ^ 31) ≤ v ∧ v ≤ 2 ^ 31 - 1 then some v else none
  else none

/-- strconv.ParseInt(s, 10, 32): optional sign, at least one digit,
and the value must fit in int32. -/
def parseInt32 (s : List Char) : Option Int :=
  match s with
  | [] => none
  | c :: rest =>
    if c = '+' then parseIntCore rest false
    else if c = '-' then parseIntCore rest true
    else parseIntCore (c :: rest) false

/-- strings.Split(s, "."): the chunks of s between dots. -/
def splitDots : List Char → List (List Char)
  | [] => [[]]
  | c :: rest =>
    if c = '.' then [] :: splitDots rest
    else
      match splitDots rest with
      | [] => [[]]
      | a :: as => (c :: a) :: as

/-- strings.IndexAny(s, "Ee") followed by the split into mantissa and
exponent part: none when s has no e or E. -/
def splitOnExp : List Char → Option (List Char × List Char)
  | [] => none
  | c :: rest =>
    if c = 'e' ∨ c = 'E' then some ([], rest)
    else
      match splitOnExp rest with
      | some (a, b) => some (c :: a, b)
      | none => none

/-- The numeric value of a decimal with integer mantissa n and power-of-ten
exponent e, as a rational.  Written with Nat powers and mkRat so that it
evaluates by kernel reduction; decVal_eq below gives the usual form. -/
def decVal (n : Int) (e : Int) : ℚ :=
  if 0 ≤ e then (n : ℚ) * ((10 ^ e.toNat : ℕ) : ℚ)
  else mkRat n (10 ^ (-e).toNat)

/-- The dot-splitting half of decimal.NewFromString: at most one dot,
the digits re-joined for big.Int.SetString, the exponent lowered by the
length of the fractional part, and the final int32 range check. -/
def mantissaToDec (m : List Char) (e : Int) : Option ℚ :=
  match splitDots m with
  | [p] =>
    match parseBigInt p with
    | none => none
    | some n => if -(2 ^ 31) ≤ e ∧ e ≤ 2 ^ 31 - 1 then some (decVal n e) else none
  | [p, q] =>
    let e2 : Int := e - (q.length : Int)
    match parseBigInt (p ++ q) with
    | none => none
    | some n => if -(2 ^ 31) ≤ e2 ∧ e2 ≤ 2 ^ 31 - 1 then some (decVal n e2) else none
  | _ => none

/-- decimal.NewFromString. -/
def newFromString (v : List Char) : Option ℚ :=
  match splitOnExp v with
  | some (m, epart) =>
    match parseInt32 epart with
    | none => none
    | some e => mantissaToDec m e
  | none => mantissaToDec v 0

/-- heureka.Price.UnmarshalText: normalise then parse.  Returns none
exactly when the Go method returns a non-nil error. -/
def priceUnmarshalText (s : List Char) : Option ℚ :=
  newFromString (commasToDots (removeSpaces s))

/-- Number of dots in a character list. -/
def countDot : List Char → Nat
  | [] => 0
  | c :: r => (if c = '.' then 1 else 0) + countDot r

lemma decVal_eq (n e : Int) : decVal n e = (n : ℚ) * (10 : ℚ) ^ e := by
  unfold decVal
  split
  · rename_i h
    rw [show ((10 ^ e.toNat : ℕ) : ℚ) = (10 : ℚ) ^ e.toNat by push_cast [Nat.cast_pow]; norm_num]
    rw [← zpow_natCast (10 : ℚ) e.toNat, Int.toNat_of_nonneg h]
  · rename_i h
    rw [Rat.mkRat_eq_div]
    rw [show ((10 ^ (-e).toNat : ℕ) : ℚ) = (10 : ℚ) ^ (-e).toNat by push_cast [Nat.cast_pow]; norm_num]
    have hk : (10 : ℚ) ^ e = ((10 : ℚ) ^ ((-e).toNat))⁻¹ := by
      rw [← zpow_natCast (10 : ℚ) (-e).toNat, ← zpow_neg]
      congr 1
      omega
    rw [hk, div_eq_mul_inv]

lemma digitsToNat_step (l : List Char) (a : Nat) :
    l.foldl (fun a c => a * 10 + (c.toNat - 48)) a = a * 10 ^ l.length + digitsToNat l := by
  induction l generalizing a with
  | nil => simp [digitsToNat]
  | cons c r ih =>
    rw [List.foldl_cons, ih]
    have hr : digitsToNat (c :: r) = (c.toNat - 48) * 10 ^ r.length + digitsToNat r := by
      rw [digitsToNat, List.foldl_cons, ih (0 * 10 + (c.toNat - 48))]
      norm_num
    rw [hr, List.length_cons]
    ring

lemma digitsToNat_append (a b : List Char) :
    digitsToNat (a ++ b) = digitsToNat a * 10 ^ b.length + digitsToNat b := by
  rw [digitsToNat, List.foldl_append, digitsToNat_step]
  rfl

lemma commasToDots_of_no_comma (l : List Char) (h : ∀ c ∈ l, c ≠ ',') :
    commasToDots l = l := by
  induction l with
  | nil => rfl
  | cons c r ih =>
    rw [commasToDots, List.map_cons]
    rw [if_neg (h c (List.mem_cons_self c r))]
    rw [show List.map (fun c => if c = ',' then '.' else c) r = commasToDots r from rfl]
    rw [ih fun x hx => h x (List.mem_cons_of_mem c hx)]

lemma isDigit_ne (c d : Char) (hc : c.isDigit = true) (hd : d.isDigit = false) : c ≠ d := by
  intro h
  rw [h, hd] at hc
  exact Bool.false_ne_true hc

lemma splitOnExp_eq_none (l : List Char) (h : ∀ c ∈ l, ¬(c = 'e' ∨ c = 'E')) :
    splitOnExp l = none := by
  induction l with
  | nil => rfl
  | cons c r ih =>
    rw [splitOnExp, if_neg (h c (List.mem_cons_self c r))]
    rw [ih fun x hx => h x (List.mem_cons_of_mem c hx)]

lemma splitOnExp_sound (l m ep : List Char) (h : splitOnExp l = some (m, ep)) :
    ∃ c, (c = 'e' ∨ c = 'E') ∧ l = m ++ c :: ep ∧ ∀ x ∈ m, ¬(x = 'e' ∨ x = 'E') := by
  induction l generalizing m with
  | nil => simp [splitOnExp] at h
  | cons c r ih =>
    rw [splitOnExp] at h
    by_cases hc : c = 'e' ∨ c = 'E'
    · rw [if_pos hc] at h
      simp only [Option.some.injEq, Prod.mk.injEq] at h
      obtain ⟨hm, hep⟩ := h
      exact ⟨c, hc, by rw [← hm, ← hep]; simp, by rw [← hm]; simp⟩
    · rw [if_neg hc] at h
      cases hr : splitOnExp r with
      | none => rw [hr] at h; exact absurd h (by simp)
      | some p =>
        obtain ⟨a, b⟩ := p
        rw [hr] at h
        simp only [Option.some.injEq, Prod.mk.injEq] at h
        obtain ⟨hm, hep⟩ := h
        obtain ⟨d, hd, hreq, hnone⟩ := ih a (by rw [hr, hep])
        refine ⟨d, hd, ?_, ?_⟩
        · rw [← hm, hreq]; simp
        · intro x hx
          rw [← hm] at hx
          rcases List.mem_cons.mp hx with h1 | h2
          · rw [h1]; exact hc
          · exact hnone x h2

lemma splitDots_sepFree (l : List Char) (h : ∀ c ∈ l, c ≠ '.') : splitDots l = [l] := by
  induction l with
  | nil => rfl
  | cons c r ih =>
    have hc : ¬(c = '.') := h c (List.mem_cons_self c r)
    have hr : splitDots r = [r] := ih fun x hx => h x (List.mem_cons_of_mem c hx)
    simp only [splitDots, if_neg hc, hr]

lemma splitDots_ne_nil (l : List Char) : splitDots l ≠ [] := by
  cases l with
  | nil => simp [splitDots]
  | cons c r =>
    by_cases hc : c = '.'
    · simp only [splitDots, if_pos hc]
      simp
    · simp only [splitDots, if_neg hc]
      cases splitDots r with
      | nil => simp
      | cons a as => simp

lemma splitDots_append (a b : List Char) (h : ∀ c ∈ a, c ≠ '.') :
    splitDots (a ++ '.' :: b) = a :: splitDots b := by
  induction a with
  | nil =>
    simp [splitDots]
  | cons c r ih =>
    have hc : ¬(c = '.') := h c (List.mem_cons_self c r)
    have hr := ih fun x hx => h x (List.mem_cons_of_mem c hx)
    rw [List.cons_append]
    simp only [splitDots, if_neg hc, hr]

lemma splitDots_length (l : List Char) : (splitDots l).length = countDot l + 1 := by
  induction l with
  | nil => rfl
  | cons c r ih =>
    by_cases hc : c = '.'
    · simp only [splitDots, if_pos hc, countDot, if_pos hc, List.length_cons]
      omega
    · simp only [splitDots, if_neg hc, countDot, if_neg hc]
      cases hr : splitDots r with
      | nil => exact absurd hr (splitDots_ne_nil r)
      | cons a as =>
        rw [hr] at ih
        simp only [List.length_cons] at ih ⊢
        omega

lemma countDot_append (a b : List Char) : countDot (a ++ b) = countDot a + countDot b := by
  induction a with
  | nil => simp [countDot]
  | cons c r ih => rw [List.cons_append, countDot, countDot, ih]; ring

lemma countDot_pos_mem (l : List Char) (h : 1 ≤ countDot l) : '.' ∈ l := by
  induction l with
  | nil => simp [countDot] at h
  | cons c r ih =>
    rw [countDot] at h
    by_cases hc : c = '.'
    · rw [hc]; exact List.mem_cons_self '.' r
    · rw [if_neg hc] at h
      exact List.mem_cons_of_mem c (ih (by omega))

lemma parseBigInt_digits (l : List Char) (h : l ≠ []) (hd : ∀ c ∈ l, c.isDigit = true) :
    parseBigInt l = some ((digitsToNat l : Nat) : Int) := by
  cases l with
  | nil => exact absurd rfl h
  | cons c rest =>
    have hc : c.isDigit = true := hd c (List.mem_cons_self c rest)
    rw [parseBigInt]
    rw [if_neg (isDigit_ne c '+' hc (by decide)), if_neg (isDigit_ne c '-' hc (by decide))]
    rw [if_pos (List.all_eq_true.mpr fun x hx => hd x hx)]

lemma parseIntCore_dot (l : List Char) (neg : Bool) (h : '.' ∈ l) :
    parseIntCore l neg = none := by
  have hno : ¬(l ≠ [] ∧ l.all Char.isDigit = true) := by
    rintro ⟨-, hall⟩
    have := List.all_eq_true.mp hall '.' h
    exact absurd this (by decide)
  rw [parseIntCore, if_neg hno]

lemma parseInt32_dot (l : List Char) (h : '.' ∈ l) : parseInt32 l = none := by
  cases l with
  | nil => simp at h
  | cons c rest =>
    rw [parseInt32]
    by_cases hc : c = '+'
    · subst hc
      rw [if_pos rfl]
      exact parseIntCore_dot rest false (by simpa using h)
    · rw [if_neg hc]
      by_cases hm : c = '-'
      · subst hm
        rw [if_pos rfl]
        exact parseIntCore_dot rest true (by simpa using h)
      · rw [if_neg hm]
        exact parseIntCore_dot (c :: rest) false h

lemma mantissaToDec_many_dots (m : List Char) (e : Int) (h : 2 ≤ countDot m) :
    mantissaToDec m e = none := by
  have hlen : 3 ≤ (splitDots m).length := by rw [splitDots_length]; omega
  rcases hsd : splitDots m with _ | ⟨a, _ | ⟨b, _ | ⟨c, rest⟩⟩⟩ <;> rw [hsd] at hlen <;>
    simp only [List.length_nil, List.length_cons] at hlen
  · omega
  · omega
  · omega
  · rw [mantissaToDec, hsd]

lemma price_norm_pos (s I F : List Char) (sep : Char)
    (hsep : sep = ',' ∨ sep = '.')
    (hI : I ≠ []) (hF : F ≠ [])
    (hId : ∀ c ∈ I, c.isDigit = true) (hFd : ∀ c ∈ F, c.isDigit = true)
    (hs : removeSpaces s = I ++ sep :: F)
    (hlen : F.length ≤ 2 ^ 31) :
    priceUnmarshalText s =
      some ((digitsToNat I : ℚ) + (digitsToNat F : ℚ) / (10 : ℚ) ^ F.length) := by
  have hIdot : ∀ c ∈ I, c ≠ '.' := fun c hc => isDigit_ne c '.' (hId c hc) (by decide)
  have hFdot : ∀ c ∈ F, c ≠ '.' := fun c hc => isDigit_ne c '.' (hFd c hc) (by decide)
  have hnorm : commasToDots (I ++ sep :: F) = I ++ '.' :: F := by
    rw [commasToDots, List.map_append, List.map_cons]
    rw [show List.map (fun c => if c = ',' then '.' else c) I = commasToDots I from rfl]
    rw [show List.map (fun c => if c = ',' then '.' else c) F = commasToDots F from rfl]
    rw [commasToDots_of_no_comma I fun c hc => isDigit_ne c ',' (hId c hc) (by decide)]
    rw [commasToDots_of_no_comma F fun c hc => isDigit_ne c ',' (hFd c hc) (by decide)]
    rcases hsep with h | h <;> rw [h] <;> simp
  rw [priceUnmarshalText, hs, hnorm]
  have hnoE : splitOnExp (I ++ '.' :: F) = none := by
    apply splitOnExp_eq_none
    intro c hc
    rcases List.mem_append.mp hc with h1 | h2
    · rintro (rfl | rfl)
      · exact absurd (hId _ h1) (by decide)
      · exact absurd (hId _ h1) (by decide)
    · rcases List.mem_cons.mp h2 with h3 | h4
      · rw [h3]; decide
      · rintro (rfl | rfl)
        · exact absurd (hFd _ h4) (by decide)
        · exact absurd (hFd _ h4) (by decide)
  rw [newFromString, hnoE]
  have hdots : splitDots (I ++ '.' :: F) = [I, F] := by
    rw [splitDots_append I F hIdot, splitDots_sepFree F hFdot]
  have hIF : I ++ F ≠ [] := by
    intro hemp
    exact hI (List.append_eq_nil.mp hemp).1
  have hIFd : ∀ c ∈ I ++ F, c.isDigit = true := by
    intro c hc
    rcases List.mem_append.mp hc with h1 | h2
    · exact hId c h1
    · exact hFd c h2
  rw [mantissaToDec, hdots]
  simp only [parseBigInt_digits (I ++ F) hIF hIFd]
  have hrange : -(2 ^ 31) ≤ (0 : ℤ) - (F.length : ℤ) ∧ (0 : ℤ) - (F.length : ℤ) ≤ 2 ^ 31 - 1 := by
    constructor <;> omega
  rw [if_pos hrange, decVal_eq, digitsToNat_append]
  have hz : ((0 : ℤ) - (F.length : ℤ)) = -(F.length : ℤ) := by ring
  rw [hz, zpow_neg, zpow_natCast]
  have h10 : ((10 : ℚ) ^ F.length) ≠ 0 := by positivity
  push_cast
  field_simp

lemma price_many_dots (t : List Char)
    (h : 2 ≤ countDot (commasToDots (removeSpaces t))) :
    priceUnmarshalText t = none := by
  rw [priceUnmarshalText]
  cases hE : splitOnExp (commasToDots (removeSpaces t)) with
  | none =>
    rw [newFromString, hE]
    exact mantissaToDec_many_dots _ 0 h
  | some p =>
    obtain ⟨m, ep⟩ := p
    simp only [newFromString, hE]
    obtain ⟨c, hc, hveq, -⟩ := splitOnExp_sound _ m ep hE
    have hcd : ¬(c = '.') := by rcases hc with rfl | rfl <;> decide
    have hcnt : countDot (commasToDots (removeSpaces t)) = countDot m + countDot ep := by
      rw [hveq, countDot_append, countDot, if_neg hcd]
      omega
    by_cases hdm : 2 ≤ countDot m
    · cases hpe : parseInt32 ep with
      | none => simp
      | some e => simp only [mantissaToDec_many_dots m e hdm]
    · have hep : 1 ≤ countDot ep := by omega
      rw [parseInt32_dot ep (countDot_pos_mem ep hep)]

/-- Claim C4: price parsing first removes ASCII spaces and replaces commas
with dots; any input whose space-free form is a digit string, one comma or
dot, and another digit string parses to the decimal with that separator as
the decimal point (so a string like 1 000,32 parses to 1000.32), and any
input with two or more dots after normalisation fails with an error (so a
string like 1.000.32 is rejected). -/
theorem claim_C4 :
    (∀ (s I F : List Char) (sep : Char), (sep = ',' ∨ sep = '.') → I ≠ [] → F ≠ [] →
      (∀ c ∈ I, c.isDigit = true) → (∀ c ∈ F, c.isDigit = true) →
      removeSpaces s = I ++ sep :: F → F.length ≤ 2 ^ 31 →
      priceUnmarshalText s = some ((digitsToNat I : ℚ) + (digitsToNat F : ℚ) / (10 : ℚ) ^ F.length))
    ∧ (∀ t : List Char, 2 ≤ countDot (commasToDots (removeSpaces t)) →
      priceUnmarshalText t = none) :=
  ⟨fun s I F sep h1 h2 h3 h4 h5 h6 h7 => price_norm_pos s I F sep h1 h2 h3 h4 h5 h6 h7,
   fun t ht => price_many_dots t ht⟩

/-- Witness for claim C4: the two literal examples of the claim. -/
theorem claim_C4_witness :
    (removeSpaces "1 000,32".data = "1000".data ++ ',' :: "32".data
      ∧ priceUnmarshalText "1 000,32".data =
        some ((digitsToNat "1000".data : ℚ) + (digitsToNat "32".data : ℚ) / (10 : ℚ) ^ ("32".data).length))
    ∧ (2 ≤ countDot (commasToDots (removeSpaces "1.000.32".data))
      ∧ priceUnmarshalText "1.000.32".data = none) :=
  ⟨⟨by decide,
    claim_C4.1 "1 000,32".data "1000".data "32".data ','
      (Or.inl rfl) (by decide) (by decide) (by decide) (by decide) (by decide) (by decide)⟩,
   ⟨by decide, claim_C4.2 "1.000.32".data (by decide)⟩⟩

/-! ## Topics and the kafka producer pool (cmd/feeddo/kafka)

The broker is external: it is modelled by an oracle
produce : topic → message → ProduceOut giving, for each submission, the
outcome the confluent client reports (a submit error, or the event read
back from the per-submission delivery channel).  putItemToKafka and the
worker body of CreateProducersPool are translated directly; alongside the
Result that the code emits, each function also returns the list of topics
actually submitted to the broker, which is the call trace of the oracle
and makes "the second topic is not attempted" statable. -/

/-- kafka.TopicShopItems: all items are sent to this topic. -/
def TopicShopItems : String := "shop_items"

/-- kafka.TopicShopItemsBidding: per its documentation, only items with
bidding set and greater than zero should be sent there. -/
def TopicShopItemsBidding : String := "shop_items_bidding"

/-- The event a worker reads from the delivery channel: either a kafka
message carrying an optional delivery error, or a value of another type. -/
inductive KafkaEvent where
  | message (deliveryErr : Option String)
  | other
deriving DecidableEq

/-- Outcome of one Produce call of the broker client. -/
inductive ProduceOut where
  | submitErr (e : String)
  | ack (ev : KafkaEvent)
deriving DecidableEq

/-- The data reachable through the kafka.Itemer interface. -/
structure KItem where
  context : String
  id : String
  marshalled : Option (List Nat)
  topics : List String
deriving DecidableEq

/-- kafka.Result. -/
structure KResult where
  itemContext : String
  itemID : String
  err : Option String
deriving DecidableEq

/-- Producer.sendMessageToKafka: submit, then block on the delivery
channel and interpret the event. -/
def sendMessageToKafka (produce : String → List Nat → ProduceOut)
    (topic : String) (m : List Nat) : Option String :=
  match produce topic m with
  | .submitErr e => some ("Send message to kafka failed because of " ++ e)
  | .ack (.message (some e)) => some ("Delivery to kafka failed: " ++ e)
  | .ack (.message none) => none
  | .ack .other => some "Failed to cast message from channel to kafka message"

/-- The topic loop of Producer.putItemToKafka: publish to each topic in
order, stopping at the first error.  Also returns the topics submitted. -/
def sendTopicsLoop (produce : String → List Nat → ProduceOut)
    (ctx id : String) (m : List Nat) : List String → KResult × List String
  | [] => ({ itemContext := ctx, itemID := id, err := none }, [])
  | t :: ts =>
    match sendMessageToKafka produce t m with
    | some e =>
      ({ itemContext := ctx, itemID := id,
         err := some ("Failed to send message to topic " ++ t ++ " because of: " ++ e) }, [t])
    | none =>
      let r := sendTopicsLoop produce ctx id m ts
      (r.1, t :: r.2)

/-- Producer.putItemToKafka: marshal, then run the topic loop. -/
def putItemToKafka (produce : String → List Nat → ProduceOut)
    (item : KItem) : KResult × List String :=
  match item.marshalled with
  | none =>
    ({ itemContext := item.context, itemID := item.id,
       err := some "Failed to marshal json" }, [])
  | some m => sendTopicsLoop produce item.context item.id m item.topics

/-- One iteration of the worker loop in Producer.CreateProducersPool for a
job consumed from the input channel: the Results emitted on chanRes
(first component) and the topics submitted to the broker.  The worker
publishes, and emits a Result, only when the consumed item has a
non-empty context. -/
def producerWorkerStep (produce : String → List Nat → ProduceOut)
    (item : KItem) : List KResult × List String :=
  if item.context ≠ "" then
    ([(putItemToKafka produce item).1], (putItemToKafka produce item).2)
  else ([], [])

/-- Topic derivation in runOnce of cmd/feeddo/main.go (current
iteration): topics start as [TopicShopItems], and TopicShopItemsBidding
is appended iff item.HeurekaCPC.Equal(decimal.Zero) is false. -/
def deriveTopics (cpc : ℚ) : List String :=
  if ¬(cpc = 0) then [TopicShopItems] ++ [TopicShopItemsBidding] else [TopicShopItems]

/-- The job the per-feed runner enqueues on the kafka item channel. -/
structure AppJob where
  id : String
  feed : String
  topics : List String
deriving DecidableEq

/-- The item branch of the per-feed select loop in runOnce (current
iteration): for an item received from the parser, the job enqueued (if
any) and the errors emitted on errChan (always none on this branch). -/
def runOnceItemStep (feed id : String) (cpc : ℚ) : Option AppJob × List String :=
  if id ≠ "" then
    (some { id := id, feed := feed, topics := deriveTopics cpc }, [])
  else (none, [])


/-- Claim C1 evaluated where it fails: the code derives the topic set from
CPC not equal to zero, so a record whose CPC parses to -1 (which the price
decoder accepts) gets the bidding topic even though its CPC is not
strictly greater than zero; zero CPC and positive CPC behave as claimed. -/
theorem claim_C1_bug :
    deriveTopics (-1 : ℚ) = [TopicShopItems, TopicShopItemsBidding]
    ∧ ¬((-1 : ℚ) > 0)
    ∧ priceUnmarshalText "-1".data = some (-1 : ℚ)
    ∧ deriveTopics 0 = [TopicShopItems]
    ∧ deriveTopics ((1 : ℚ) / 2) = [TopicShopItems, TopicShopItemsBidding] := by
  refine ⟨?_, by norm_num, ?_, ?_, ?_⟩
  · rw [deriveTopics, if_pos (by norm_num)]
    rfl
  · rw [show priceUnmarshalText "-1".data = some (decVal (-1) 0) from rfl, decVal_eq]
    norm_num
  · rw [deriveTopics, if_neg (by norm_num)]
  · rw [deriveTopics, if_pos (by norm_num)]
    rfl

/-- Claim C10: an item emitted by the parser whose ID is empty is silently
dropped by the per-feed runner: no job is enqueued and no error is
emitted; an item with a non-empty ID is enqueued with the derived
topics. -/
theorem claim_C10 (feed id : String) (cpc : ℚ) :
    (id = "" → runOnceItemStep feed id cpc = (none, []))
    ∧ (id ≠ "" →
      runOnceItemStep feed id cpc = (some { id := id, feed := feed, topics := deriveTopics cpc }, [])) := by
  constructor
  · intro h
    rw [runOnceItemStep, if_neg (by simp [h])]
  · intro h
    rw [runOnceItemStep, if_pos h]

/-- Witness for claim C10 at concrete inputs. -/
theorem claim_C10_witness :
    (("" : String) = "" ∧ runOnceItemStep "http://feed.example" "" 1 = (none, []))
    ∧ (("abc123" : String) ≠ ""
      ∧ runOnceItemStep "http://feed.example" "abc123" 0 =
        (some { id := "abc123", feed := "http://feed.example", topics := deriveTopics 0 }, [])) :=
  ⟨⟨rfl, (claim_C10 "http://feed.example" "" 1).1 rfl⟩,
   ⟨by decide, (claim_C10 "http://feed.example" "abc123" 0).2 (by decide)⟩⟩

/-- Claim C3 (amended): a publisher-pool worker emits exactly one Result
for every consumed job whose context is non-empty; a job with an empty
context is consumed without emitting any Result (see the
counterexample). -/
theorem claim_C3 (produce : String → List Nat → ProduceOut) (item : KItem)
    (h : item.context ≠ "") :
    (producerWorkerStep produce item).1 = [(putItemToKafka produce item).1] := by
  rw [producerWorkerStep, if_pos h]

def c3Produce : String → List Nat → ProduceOut := fun _ _ => .ack (.message none)

def c3Item : KItem :=
  { context := "", id := "x1", marshalled := some [123], topics := [TopicShopItems] }

/-- Counterexample to claim C3 as stated: a job with an empty context is
consumed by the worker and no Result is emitted for it. -/
theorem claim_C3_cex :
    (producerWorkerStep c3Produce c3Item).1 = []
    ∧ (producerWorkerStep c3Produce c3Item).1.length ≠ 1 :=
  ⟨rfl, by decide⟩

def c3wItem : KItem :=
  { context := "http://feed.example", id := "x1", marshalled := some [123], topics := [TopicShopItems] }

/-- Witness for claim C3 at a concrete job with non-empty context. -/
theorem claim_C3_witness :
    c3wItem.context ≠ ""
    ∧ (producerWorkerStep c3Produce c3wItem).1 = [(putItemToKafka c3Produce c3wItem).1] :=
  ⟨by decide, claim_C3 c3Produce c3wItem (by decide)⟩

lemma sendTopicsLoop_all_none (produce : String → List Nat → ProduceOut)
    (ctx id : String) (m : List Nat) (ts : List String)
    (h : ∀ t ∈ ts, sendMessageToKafka produce t m = none) :
    sendTopicsLoop produce ctx id m ts = ({ itemContext := ctx, itemID := id, err := none }, ts) := by
  induction ts with
  | nil => rfl
  | cons t ts ih =>
    rw [sendTopicsLoop]
    rw [h t (List.mem_cons_self t ts)]
    rw [ih fun x hx => h x (List.mem_cons_of_mem t hx)]

/-- Claim C7: when the first topic of a multi-topic job fails, the worker
does not attempt any further topic and the single Result carries the
error; when every topic succeeds the single Result has no error and every
topic was submitted. -/
theorem claim_C7 (produce : String → List Nat → ProduceOut) (item : KItem)
    (m : List Nat) (t1 t2 : String) (rest : List String)
    (hm : item.marshalled = some m) (ht : item.topics = t1 :: t2 :: rest) :
    (∀ e, sendMessageToKafka produce t1 m = some e →
      putItemToKafka produce item =
        ({ itemContext := item.context, itemID := item.id,
           err := some ("Failed to send message to topic " ++ t1 ++ " because of: " ++ e) }, [t1]))
    ∧ ((∀ t ∈ item.topics, sendMessageToKafka produce t m = none) →
      putItemToKafka produce item =
        ({ itemContext := item.context, itemID := item.id, err := none }, item.topics)) := by
  constructor
  · intro e he
    simp only [putItemToKafka, hm, ht, sendTopicsLoop, he]
  · intro hall
    simp only [putItemToKafka, hm]
    rw [sendTopicsLoop_all_none produce item.context item.id m item.topics hall]

def c7Produce : String → List Nat → ProduceOut :=
  fun t _ => if t = TopicShopItems then .submitErr "broker down" else .ack (.message none)

def c7Item : KItem :=
  { context := "http://feed.example", id := "a1", marshalled := some [123],
    topics := [TopicShopItems, TopicShopItemsBidding] }

def c7ProduceOk : String → List Nat → ProduceOut := fun _ _ => .ack (.message none)

/-- Witness for claim C7: a broker failing on the first topic, and a
broker accepting both topics. -/
theorem claim_C7_witness :
    (c7Item.marshalled = some [123]
      ∧ c7Item.topics = TopicShopItems :: TopicShopItemsBidding :: []
      ∧ sendMessageToKafka c7Produce TopicShopItems [123] =
        some "Send message to kafka failed because of broker down"
      ∧ putItemToKafka c7Produce c7Item =
        ({ itemContext := c7Item.context, itemID := c7Item.id,
           err := some ("Failed to send message to topic " ++ TopicShopItems ++ " because of: "
             ++ "Send message to kafka failed because of broker down") }, [TopicShopItems]))
    ∧ ((∀ t ∈ c7Item.topics, sendMessageToKafka c7ProduceOk t [123] = none)
      ∧ putItemToKafka c7ProduceOk c7Item =
        ({ itemContext := c7Item.context, itemID := c7Item.id, err := none }, c7Item.topics)) :=
  ⟨⟨rfl, rfl, by decide,
    (claim_C7 c7Produce c7Item [123] TopicShopItems TopicShopItemsBidding [] rfl rfl).1
      "Send message to kafka failed because of broker down" (by decide)⟩,
   ⟨by decide,
    (claim_C7 c7ProduceOk c7Item [123] TopicShopItems TopicShopItemsBidding [] rfl rfl).2
      (by decide)⟩⟩


/-! ## Metrics container (cmd/feeddo/metrics) -/

/-- metrics.MetricTypeFeed. -/
def MetricTypeFeed : String := "feed"
/-- metrics.MetricTypeTotal. -/
def MetricTypeTotal : String := "total"
/-- metrics.MetricTypeFailed. -/
def MetricTypeFailed : String := "failed"
/-- metrics.MetricTypeSucceeded. -/
def MetricTypeSucceeded : String := "succeeded"

/-- The value store of one feed: metric type to current value.  The Go
values are float64 counters and gauges touched only through Add; every
update in the program adds an integer, so integers model them exactly. -/
abbrev MetricBundle := List (String × Int)

/-- metrics.Container: feed key to metric bundle. -/
abbrev Container := List (String × MetricBundle)

/-- First-match association lookup, the map read m[k]. -/
def lookupA {α : Type} : List (String × α) → String → Option α
  | [], _ => none
  | (k, v) :: rest, key => if k = key then some v else lookupA rest key

/-- Update the value under a key in place, the mutation through the map. -/
def updateA {α : Type} : List (String × α) → String → (α → α) → List (String × α)
  | [], _, _ => []
  | (k, v) :: rest, key, f =>
    if k = key then (k, f v) :: rest else (k, v) :: updateA rest key f

/-- Container.GetMetric: nested lookups with the two error messages of the
source (quotation marks around the interpolated values elided). -/
def getMetric (c : Container) (key t : String) : Except String Int :=
  match lookupA c key with
  | some b =>
    match lookupA b t with
    | some v => .ok v
    | none => .error ("Metric of type " ++ t ++ " is no supported")
  | none => .error ("Metric for key " ++ key ++ " is not configured")

/-- Container.IncrementMetric: get the metric, then Add(1) on it.  Returns
the container as mutated (the error path never touches it) and the error
returned by the Go method. -/
def incrementMetric (c : Container) (key t : String) : Container × Option String :=
  match getMetric c key t with
  | .error e => (c, some ("Failed to get metric: " ++ e))
  | .ok _ => (updateA c key (fun b => updateA b t (fun v => v + 1)), none)

/-- The four metrics NewMetrics registers for one feed, all starting at
zero. -/
def freshBundle : MetricBundle :=
  [(MetricTypeFeed, 0), (MetricTypeTotal, 0), (MetricTypeSucceeded, 0), (MetricTypeFailed, 0)]

/-- One iteration of the NewMetrics loop: create the bundle for the key
if absent, then set its four metrics fresh. -/
def setBundle (c : Container) (k : String) : Container :=
  if (lookupA c k).isSome then updateA c k (fun _ => freshBundle) else c ++ [(k, freshBundle)]

def newMetricsAux (c : Container) : List String → Container
  | [] => c
  | k :: rest => newMetricsAux (setBundle c k) rest

/-- metrics.NewMetrics over the feed-key list (u.String() of each feed). -/
def newMetrics (keys : List String) : Container := newMetricsAux [] keys

/-- Read one metric value. -/
def getVal (c : Container) (k t : String) : Option Int :=
  match lookupA c k with
  | some b => lookupA b t
  | none => none

/-- Read one metric value, zero when absent. -/
def valD (c : Container) (k t : String) : Int := (getVal c k t).getD 0

/-- The body of the result-consuming select loop processKafkaRes
(cmd/feeddo/main.go) for one Result: when the Result has a non-empty
context, increment total for that feed, then failed or succeeded
according to the error; metric errors are reported but do not stop the
fold. -/
def processKafkaResStep (c : Container) (r : KResult) : Container :=
  if r.itemContext ≠ "" then
    (incrementMetric (incrementMetric c r.itemContext MetricTypeTotal).1 r.itemContext
      (if r.err.isSome then MetricTypeFailed else MetricTypeSucceeded)).1
  else c

/-- processKafkaRes folded over the Results consumed in a run. -/
def processKafkaRes (c : Container) : List KResult → Container
  | [] => c
  | r :: rs => processKafkaRes (processKafkaResStep c r) rs

/-- Results carrying a given feed context. -/
def countCtx : List KResult → String → Nat
  | [], _ => 0
  | r :: rs, k => (if r.itemContext = k then 1 else 0) + countCtx rs k

lemma lookupA_updateA_self {α : Type} (l : List (String × α)) (key : String) (f : α → α) :
    lookupA (updateA l key f) key = (lookupA l key).map f := by
  induction l with
  | nil => rfl
  | cons p rest ih =>
    obtain ⟨k, v⟩ := p
    by_cases hk : k = key
    · rw [updateA, if_pos hk, lookupA, if_pos hk, lookupA, if_pos hk]
      rfl
    · rw [updateA, if_neg hk, lookupA, if_neg hk, lookupA, if_neg hk, ih]

lemma lookupA_updateA_ne {α : Type} (l : List (String × α)) (key k2 : String) (f : α → α)
    (h : k2 ≠ key) : lookupA (updateA l key f) k2 = lookupA l k2 := by
  induction l with
  | nil => rfl
  | cons p rest ih =>
    obtain ⟨k, v⟩ := p
    by_cases hk : k = key
    · rw [updateA, if_pos hk, lookupA, lookupA]
      rw [if_neg (by rw [hk]; exact fun he => h he.symm), if_neg (by rw [hk]; exact fun he => h he.symm)]
    · rw [updateA, if_neg hk, lookupA, lookupA, ih]

lemma lookupA_append_right {α : Type} (l1 l2 : List (String × α)) (k : String)
    (h : lookupA l1 k = none) : lookupA (l1 ++ l2) k = lookupA l2 k := by
  induction l1 with
  | nil => rfl
  | cons p rest ih =>
    obtain ⟨k0, v⟩ := p
    rw [lookupA] at h
    rw [List.cons_append, lookupA]
    by_cases hk : k0 = k
    · rw [if_pos hk] at h; exact absurd h (by simp)
    · rw [if_neg hk] at h
      rw [if_neg hk, ih h]

lemma lookupA_append_left {α : Type} (l1 l2 : List (String × α)) (k : String) (v : α)
    (h : lookupA l1 k = some v) : lookupA (l1 ++ l2) k = some v := by
  induction l1 with
  | nil => exact absurd h (by simp [lookupA])
  | cons p rest ih =>
    obtain ⟨k0, w⟩ := p
    rw [lookupA] at h
    rw [List.cons_append, lookupA]
    by_cases hk : k0 = k
    · rw [if_pos hk] at h ⊢; exact h
    · rw [if_neg hk] at h ⊢; exact ih h

lemma inc_found (c : Container) (k t : String) (b : MetricBundle) (v : Int)
    (hb : lookupA c k = some b) (hv : lookupA b t = some v) :
    incrementMetric c k t = (updateA c k (fun bb => updateA bb t (fun x => x + 1)), none) := by
  simp only [incrementMetric, getMetric, hb, hv]

lemma inc_missing (c : Container) (k t : String) (h : lookupA c k = none) :
    incrementMetric c k t =
      (c, some ("Failed to get metric: Metric for key " ++ k ++ " is not configured")) := by
  simp only [incrementMetric, getMetric, h]
  rw [← String.append_assoc, ← String.append_assoc]
  rfl

lemma inc_fst_lookup_ne (c : Container) (key t k2 : String) (h : k2 ≠ key) :
    lookupA (incrementMetric c key t).1 k2 = lookupA c k2 := by
  rw [incrementMetric]
  cases hg : getMetric c key t with
  | error e => rfl
  | ok v => exact lookupA_updateA_ne c key k2 _ h

/-- Claim C8: IncrementMetric on a feed key that is not configured
returns the not-configured error naming the key and leaves the container
unchanged (it never creates the entry, and being a total function it
cannot panic); on a configured key and metric type it adds exactly 1 to
that metric and returns no error. -/
theorem claim_C8 :
    (∀ (c : Container) (k t : String), lookupA c k = none →
      incrementMetric c k t =
        (c, some ("Failed to get metric: Metric for key " ++ k ++ " is not configured")))
    ∧ (∀ (c : Container) (k t : String) (b : MetricBundle) (v : Int),
      lookupA c k = some b → lookupA b t = some v →
      (incrementMetric c k t).2 = none
      ∧ getVal (incrementMetric c k t).1 k t = some (v + 1)) := by
  constructor
  · exact inc_missing
  · intro c k t b v hb hv
    rw [inc_found c k t b v hb hv]
    refine ⟨rfl, ?_⟩
    simp only [getVal, lookupA_updateA_self, hb, Option.map_some', lookupA_updateA_self, hv]

def c8Container : Container := [("http://feed.example", [("total", 5)])]

/-- Witness for claim C8: a missing key and the configured key of a
one-feed container. -/
theorem claim_C8_witness :
    (lookupA c8Container "http://missing" = none
      ∧ incrementMetric c8Container "http://missing" MetricTypeTotal =
        (c8Container, some "Failed to get metric: Metric for key http://missing is not configured"))
    ∧ (lookupA c8Container "http://feed.example" = some [("total", 5)]
      ∧ lookupA [(("total" : String), (5 : Int))] MetricTypeTotal = some 5
      ∧ (incrementMetric c8Container "http://feed.example" MetricTypeTotal).2 = none
      ∧ getVal (incrementMetric c8Container "http://feed.example" MetricTypeTotal).1
          "http://feed.example" MetricTypeTotal = some (5 + 1)) :=
  ⟨⟨by decide, claim_C8.1 c8Container "http://missing" MetricTypeTotal (by decide)⟩,
   ⟨by decide, by decide,
    (claim_C8.2 c8Container "http://feed.example" MetricTypeTotal [("total", 5)] 5
      (by decide) (by decide)).1,
    (claim_C8.2 c8Container "http://feed.example" MetricTypeTotal [("total", 5)] 5
      (by decide) (by decide)).2⟩⟩

/-- The per-feed counters a result fold touches all exist. -/
def hasAll (c : Container) (k : String) : Prop :=
  (getVal c k MetricTypeTotal).isSome
  ∧ (getVal c k MetricTypeSucceeded).isSome
  ∧ (getVal c k MetricTypeFailed).isSome

lemma getVal_elim (c : Container) (k t : String) (h : (getVal c k t).isSome = true) :
    ∃ b v, lookupA c k = some b ∧ lookupA b t = some v := by
  cases hb : lookupA c k with
  | none => simp [getVal, hb] at h
  | some b =>
    cases hv : lookupA b t with
    | none => simp [getVal, hb, hv] at h
    | some v => exact ⟨b, v, rfl, hv⟩

lemma inc_found_fst (c : Container) (k t : String) (b : MetricBundle) (v : Int)
    (hb : lookupA c k = some b) (hv : lookupA b t = some v) :
    (incrementMetric c k t).1 = updateA c k (fun bb => updateA bb t (fun x => x + 1)) := by
  rw [inc_found c k t b v hb hv]

lemma procStep_other (c : Container) (k : String) (r : KResult) (t : String)
    (hctx : r.itemContext ≠ k) :
    getVal (processKafkaResStep c r) k t = getVal c k t := by
  rw [processKafkaResStep]
  by_cases hne : r.itemContext ≠ ""
  · rw [if_pos hne]
    rw [getVal, getVal]
    rw [inc_fst_lookup_ne _ r.itemContext _ k (fun he => hctx he.symm)]
    rw [inc_fst_lookup_ne c r.itemContext _ k (fun he => hctx he.symm)]
  · rw [if_neg hne]

lemma procStep_self (c : Container) (k : String) (r : KResult)
    (hk : k ≠ "") (hctx : r.itemContext = k) (h : hasAll c k) :
    hasAll (processKafkaResStep c r) k
    ∧ valD (processKafkaResStep c r) k MetricTypeTotal = valD c k MetricTypeTotal + 1
    ∧ valD (processKafkaResStep c r) k MetricTypeSucceeded
        + valD (processKafkaResStep c r) k MetricTypeFailed
      = valD c k MetricTypeSucceeded + valD c k MetricTypeFailed + 1 := by
  obtain ⟨hT, hS, hF⟩ := h
  obtain ⟨b, tv, hb, htv⟩ := getVal_elim c k MetricTypeTotal hT
  obtain ⟨b2, sv, hb2, hsv⟩ := getVal_elim c k MetricTypeSucceeded hS
  obtain ⟨b3, fv, hb3, hfv⟩ := getVal_elim c k MetricTypeFailed hF
  rw [hb] at hb2 hb3
  obtain rfl : b = b2 := by injection hb2
  obtain rfl : b = b3 := by injection hb3
  have hguard : r.itemContext ≠ "" := by rw [hctx]; exact hk
  rw [processKafkaResStep, if_pos hguard, hctx]
  rw [inc_found_fst c k MetricTypeTotal b tv hb htv]
  have hc1 : lookupA (updateA c k (fun bb => updateA bb MetricTypeTotal (fun x => x + 1))) k
      = some (updateA b MetricTypeTotal (fun x => x + 1)) := by
    rw [lookupA_updateA_self, hb]; rfl
  have hb1T : lookupA (updateA b MetricTypeTotal (fun x => x + 1)) MetricTypeTotal
      = some (tv + 1) := by
    rw [lookupA_updateA_self, htv]; rfl
  have hb1S : lookupA (updateA b MetricTypeTotal (fun x => x + 1)) MetricTypeSucceeded
      = some sv := by
    rw [lookupA_updateA_ne b MetricTypeTotal MetricTypeSucceeded _ (by decide), hsv]
  have hb1F : lookupA (updateA b MetricTypeTotal (fun x => x + 1)) MetricTypeFailed
      = some fv := by
    rw [lookupA_updateA_ne b MetricTypeTotal MetricTypeFailed _ (by decide), hfv]
  by_cases herr : r.err.isSome
  · rw [if_pos herr]
    rw [inc_found_fst _ k MetricTypeFailed _ fv hc1 hb1F]
    have hc2 : lookupA (updateA
        (updateA c k (fun bb => updateA bb MetricTypeTotal (fun x => x + 1)))
        k (fun bb => updateA bb MetricTypeFailed (fun x => x + 1))) k
        = some (updateA (updateA b MetricTypeTotal (fun x => x + 1))
            MetricTypeFailed (fun x => x + 1)) := by
      rw [lookupA_updateA_self, hc1]; rfl
    have hb4T : lookupA (updateA (updateA b MetricTypeTotal (fun x => x + 1))
        MetricTypeFailed (fun x => x + 1)) MetricTypeTotal = some (tv + 1) := by
      rw [lookupA_updateA_ne _ MetricTypeFailed MetricTypeTotal _ (by decide), hb1T]
    have hb4S : lookupA (updateA (updateA b MetricTypeTotal (fun x => x + 1))
        MetricTypeFailed (fun x => x + 1)) MetricTypeSucceeded = some sv := by
      rw [lookupA_updateA_ne _ MetricTypeFailed MetricTypeSucceeded _ (by decide), hb1S]
    have hb4F : lookupA (updateA (updateA b MetricTypeTotal (fun x => x + 1))
        MetricTypeFailed (fun x => x + 1)) MetricTypeFailed = some (fv + 1) := by
      rw [lookupA_updateA_self, hb1F]; rfl
    refine ⟨⟨?_, ?_, ?_⟩, ?_, ?_⟩
    · simp only [getVal, hc2, hb4T, Option.isSome_some]
    · simp only [getVal, hc2, hb4S, Option.isSome_some]
    · simp only [getVal, hc2, hb4F, Option.isSome_some]
    · simp only [valD, getVal, hc2, hb4T, hb, htv, Option.getD_some]
    · simp only [valD, getVal, hc2, hb4S, hb4F, hb, hsv, hfv, Option.getD_some]
      ring
  · rw [if_neg herr]
    rw [inc_found_fst _ k MetricTypeSucceeded _ sv hc1 hb1S]
    have hc2 : lookupA (updateA
        (updateA c k (fun bb => updateA bb MetricTypeTotal (fun x => x + 1)))
        k (fun bb => updateA bb MetricTypeSucceeded (fun x => x + 1))) k
        = some (updateA (updateA b MetricTypeTotal (fun x => x + 1))
            MetricTypeSucceeded (fun x => x + 1)) := by
      rw [lookupA_updateA_self, hc1]; rfl
    have hb4T : lookupA (updateA (updateA b MetricTypeTotal (fun x => x + 1))
        MetricTypeSucceeded (fun x => x + 1)) MetricTypeTotal = some (tv + 1) := by
      rw [lookupA_updateA_ne _ MetricTypeSucceeded MetricTypeTotal _ (by decide), hb1T]
    have hb4S : lookupA (updateA (updateA b MetricTypeTotal (fun x => x + 1))
        MetricTypeSucceeded (fun x => x + 1)) MetricTypeSucceeded = some (sv + 1) := by
      rw [lookupA_updateA_self, hb1S]; rfl
    have hb4F : lookupA (updateA (updateA b MetricTypeTotal (fun x => x + 1))
        MetricTypeSucceeded (fun x => x + 1)) MetricTypeFailed = some fv := by
      rw [lookupA_updateA_ne _ MetricTypeSucceeded MetricTypeFailed _ (by decide), hb1F]
    refine ⟨⟨?_, ?_, ?_⟩, ?_, ?_⟩
    · simp only [getVal, hc2, hb4T, Option.isSome_some]
    · simp only [getVal, hc2, hb4S, Option.isSome_some]
    · simp only [getVal, hc2, hb4F, Option.isSome_some]
    · simp only [valD, getVal, hc2, hb4T, hb, htv, Option.getD_some]
    · simp only [valD, getVal, hc2, hb4S, hb4F, hb, hsv, hfv, Option.getD_some]
      ring

lemma processKafkaRes_spec (rs : List KResult) :
    ∀ (c : Container) (k : String), k ≠ "" → hasAll c k →
    hasAll (processKafkaRes c rs) k
    ∧ valD (processKafkaRes c rs) k MetricTypeTotal
        = valD c k MetricTypeTotal + (countCtx rs k : Int)
    ∧ valD (processKafkaRes c rs) k MetricTypeSucceeded
        + valD (processKafkaRes c rs) k MetricTypeFailed
      = valD c k MetricTypeSucceeded + valD c k MetricTypeFailed + (countCtx rs k : Int) := by
  induction rs with
  | nil =>
    intro c k hk h
    refine ⟨h, ?_, ?_⟩ <;> simp [processKafkaRes, countCtx]
  | cons r rs ih =>
    intro c k hk h
    rw [processKafkaRes]
    by_cases hctx : r.itemContext = k
    · obtain ⟨h1, h2, h3⟩ := procStep_self c k r hk hctx h
      obtain ⟨g1, g2, g3⟩ := ih (processKafkaResStep c r) k hk h1
      refine ⟨g1, ?_, ?_⟩
      · rw [g2, h2, countCtx, if_pos hctx]
        push_cast
        ring
      · rw [g3, h3, countCtx, if_pos hctx]
        push_cast
        ring
    · have hpres : ∀ t, getVal (processKafkaResStep c r) k t = getVal c k t :=
        fun t => procStep_other c k r t (fun he => hctx he)
      have h1 : hasAll (processKafkaResStep c r) k := by
        obtain ⟨a1, a2, a3⟩ := h
        exact ⟨by rw [hpres]; exact a1, by rw [hpres]; exact a2, by rw [hpres]; exact a3⟩
      obtain ⟨g1, g2, g3⟩ := ih (processKafkaResStep c r) k hk h1
      refine ⟨g1, ?_, ?_⟩
      · rw [g2, countCtx, if_neg hctx]
        simp only [valD, hpres]
        push_cast
        ring
      · rw [g3, countCtx, if_neg hctx]
        simp only [valD, hpres]
        push_cast
        ring

lemma newMetricsAux_mem (keys : List String) :
    ∀ (c : Container) (k : String), (k ∈ keys ∨ lookupA c k = some freshBundle) →
    lookupA (newMetricsAux c keys) k = some freshBundle := by
  induction keys with
  | nil =>
    intro c k h
    rcases h with h | h
    · simp at h
    · exact h
  | cons k0 rest ih =>
    intro c k h
    rw [newMetricsAux]
    apply ih
    by_cases hk0 : k = k0
    · subst hk0
      right
      rw [setBundle]
      by_cases hs : (lookupA c k).isSome
      · rw [if_pos hs, lookupA_updateA_self]
        obtain ⟨b, hb⟩ := Option.isSome_iff_exists.mp hs
        rw [hb]
        rfl
      · rw [if_neg hs]
        have hnone : lookupA c k = none := by
          cases hn : lookupA c k with
          | none => rfl
          | some b => rw [hn] at hs; simp at hs
        rw [lookupA_append_right c _ k hnone, lookupA, if_pos rfl]
    · rcases h with h | h
      · rcases List.mem_cons.mp h with h1 | h2
        · exact absurd h1 hk0
        · left; exact h2
      · right
        rw [setBundle]
        by_cases hs : (lookupA c k0).isSome
        · rw [if_pos hs, lookupA_updateA_ne c k0 k _ hk0]
          exact h
        · rw [if_neg hs, lookupA_append_left c _ k freshBundle h]

/-- Claim C2: after the metrics fold has consumed the Results of a run,
for every configured feed key (feed keys are URL strings, hence
non-empty) the total counter equals the number of Results carrying that
feed and succeeded plus failed equals total: each consumed Result
increments total once and then exactly one of succeeded or failed. -/
theorem claim_C2 (feeds : List String) (rs : List KResult) (k : String)
    (hk : k ∈ feeds) (hne : k ≠ "") :
    valD (processKafkaRes (newMetrics feeds) rs) k MetricTypeTotal = (countCtx rs k : Int)
    ∧ valD (processKafkaRes (newMetrics feeds) rs) k MetricTypeSucceeded
        + valD (processKafkaRes (newMetrics feeds) rs) k MetricTypeFailed
      = valD (processKafkaRes (newMetrics feeds) rs) k MetricTypeTotal := by
  have hfresh : lookupA (newMetrics feeds) k = some freshBundle :=
    newMetricsAux_mem feeds [] k (Or.inl hk)
  have hT : getVal (newMetrics feeds) k MetricTypeTotal = some 0 := by
    rw [getVal, hfresh]
    rfl
  have hS : getVal (newMetrics feeds) k MetricTypeSucceeded = some 0 := by
    rw [getVal, hfresh]
    rfl
  have hF : getVal (newMetrics feeds) k MetricTypeFailed = some 0 := by
    rw [getVal, hfresh]
    rfl
  have hall : hasAll (newMetrics feeds) k :=
    ⟨by rw [hT]; rfl, by rw [hS]; rfl, by rw [hF]; rfl⟩
  obtain ⟨-, g2, g3⟩ := processKafkaRes_spec rs (newMetrics feeds) k hne hall
  simp only [valD, hT, hS, hF, Option.getD_some] at g2 g3
  simp only [valD]
  constructor
  · rw [g2]; ring
  · rw [g3, g2]; ring

def c2Results : List KResult :=
  [{ itemContext := "http://feed.example", itemID := "a1", err := none },
   { itemContext := "http://feed.example", itemID := "a2", err := some "delivery failed" }]

/-- Witness for claim C2: one feed, one succeeded and one failed
Result. -/
theorem claim_C2_witness :
    (("http://feed.example" : String) ∈ ["http://feed.example"]
      ∧ ("http://feed.example" : String) ≠ "")
    ∧ (valD (processKafkaRes (newMetrics ["http://feed.example"]) c2Results)
          "http://feed.example" MetricTypeTotal = (countCtx c2Results "http://feed.example" : Int)
      ∧ valD (processKafkaRes (newMetrics ["http://feed.example"]) c2Results)
          "http://feed.example" MetricTypeSucceeded
        + valD (processKafkaRes (newMetrics ["http://feed.example"]) c2Results)
          "http://feed.example" MetricTypeFailed
      = valD (processKafkaRes (newMetrics ["http://feed.example"]) c2Results)
          "http://feed.example" MetricTypeTotal) :=
  ⟨⟨by decide, by decide⟩,
   claim_C2 ["http://feed.example"] c2Results "http://feed.example" (by decide) (by decide)⟩

/-! ## The periodic driver (runPeriodic, cmd/feeddo/main.go, current
iteration)

runPeriodic runs one pass synchronously; on any error it returns at
once.  Otherwise it enters a select loop with the local state
processing (a pass is in flight) and runLoop (no termination signal and
no pass error so far).  Each loop iteration consumes one event:
a termination signal, an error from the in-flight pass, the done signal
of the in-flight pass, or a ticker tick; on a tick a new pass is
spawned iff not processing and runLoop still holds; after each event
the loop exits when neither processing nor runLoop.  The loop is
embedded as a step function over that state plus ghost fields: inFlight
(spawned passes not yet done), passErrs (error events consumed),
gotSignal, started (passes spawned by ticks), exited (the loop broke).
An environment event done or errv is only deliverable while a pass is
in flight; pvalid captures that. -/

structure PState where
  processing : Bool
  runLoop : Bool
  gotSignal : Bool
  exited : Bool
  inFlight : Nat
  passErrs : Nat
  started : Nat
deriving DecidableEq

/-- Events the select loop of runPeriodic can consume. -/
inductive PEvent where
  | signal
  | errv
  | done
  | tick
deriving DecidableEq

/-- The select body of runPeriodic for one consumed event. -/
def pstepCore (s : PState) : PEvent → PState
  | .signal => { s with runLoop := false, gotSignal := true }
  | .errv => { s with runLoop := false, passErrs := s.passErrs + 1 }
  | .done => { s with processing := false, inFlight := s.inFlight - 1 }
  | .tick =>
    if s.processing = false ∧ s.runLoop = true then
      { s with processing := true, inFlight := s.inFlight + 1, started := s.started + 1 }
    else s

/-- One loop iteration: consume the event, then break when neither
processing nor runLoop (the loop exit test at the bottom of the for).
After the loop has exited no further event is consumed. -/
def pstep (s : PState) (e : PEvent) : PState :=
  if s.exited then s
  else
    let s2 := pstepCore s e
    { s2 with exited := !s2.processing && !s2.runLoop }

/-- An event deliverable in a state: pass-completion and pass-error
events require an in-flight pass. -/
def pvalid (s : PState) : PEvent → Bool
  | .done => 1 ≤ s.inFlight
  | .errv => 1 ≤ s.inFlight
  | _ => true

/-- A deliverable event trace. -/
def validFrom (s : PState) : List PEvent → Bool
  | [] => true
  | e :: es => pvalid s e && validFrom (pstep s e) es

/-- runPeriodic state entering the loop, after the initial synchronous
pass succeeded. -/
def initP : PState :=
  { processing := false, runLoop := true, gotSignal := false, exited := false,
    inFlight := 0, passErrs := 0, started := 0 }

def runP (s : PState) (es : List PEvent) : PState := es.foldl pstep s

/-- Loop invariant of the periodic driver. -/
def PInv (s : PState) : Prop :=
  (s.processing = true ↔ s.inFlight = 1)
  ∧ s.inFlight ≤ 1
  ∧ (s.runLoop = true ↔ (s.passErrs = 0 ∧ s.gotSignal = false))
  ∧ (s.exited = false → (s.processing = true ∨ s.runLoop = true))

lemma pinv_init : PInv initP := by
  constructor
  · simp [initP]
  · refine ⟨by simp [initP], by simp [initP], by simp [initP]⟩

lemma pinv_step (s : PState) (e : PEvent) (hv : pvalid s e = true) (h : PInv s) :
    PInv (pstep s e) := by
  rcases s with ⟨pr, rl, gs, ex, fl, pe, st⟩
  revert hv h
  cases e <;> cases pr <;> cases rl <;> cases gs <;> cases ex <;>
    simp [PInv, pvalid, pstep, pstepCore] <;> omega

lemma pinv_run (es : List PEvent) :
    ∀ (s : PState), validFrom s es = true → PInv s → PInv (runP s es) := by
  induction es with
  | nil => intro s _ h; exact h
  | cons e es ih =>
    intro s hv h
    rw [validFrom, Bool.and_eq_true] at hv
    exact ih (pstep s e) hv.2 (pinv_step s e hv.1 h)

lemma tick_iff (s : PState) (h : PInv s) (hex : s.exited = false) :
    (pstep s PEvent.tick).started = s.started + 1 ↔ (s.inFlight = 0 ∧ s.passErrs = 0) := by
  rcases s with ⟨pr, rl, gs, ex, fl, pe, st⟩
  revert h hex
  cases pr <;> cases rl <;> cases gs <;> cases ex <;>
    simp [PInv, pstep, pstepCore] <;> omega

/-- Claim C5: along every deliverable event trace of the periodic
driver, at most one pass is in flight, and while the loop is still
consuming events a tick starts a new pass iff no pass is in flight and
no pass so far has ended with an error. -/
theorem claim_C5 (es : List PEvent) (hv : validFrom initP es = true) :
    (runP initP es).inFlight ≤ 1
    ∧ ((runP initP es).exited = false →
      ((pstep (runP initP es) PEvent.tick).started = (runP initP es).started + 1
        ↔ ((runP initP es).inFlight = 0 ∧ (runP initP es).passErrs = 0))) := by
  have h := pinv_run es initP hv pinv_init
  exact ⟨h.2.1, fun hex => tick_iff (runP initP es) h hex⟩

def c5Trace : List PEvent := [.tick, .done, .tick]

/-- Witness for claim C5: a trace with two ticks separated by a pass
completion. -/
theorem claim_C5_witness :
    validFrom initP c5Trace = true
    ∧ ((runP initP c5Trace).inFlight ≤ 1
      ∧ ((runP initP c5Trace).exited = false →
        ((pstep (runP initP c5Trace) PEvent.tick).started = (runP initP c5Trace).started + 1
          ↔ ((runP initP c5Trace).inFlight = 0 ∧ (runP initP c5Trace).passErrs = 0)))) :=
  ⟨by decide, claim_C5 c5Trace (by decide)⟩

/-! ## main and appRun of the current iteration (exit codes)

appRun builds the pipeline, runs the passes, and forwards every
pass error into the error channel, where it is only logged; its sole
non-nil return is the kafka-producer construction failure, and its final
statement returns nil.  main exits with code 1 iff appRun returned a
non-nil error.  The embedding abstracts the pipeline by the producer
construction outcome and the error list the passes returned; the second
component of appRun is the wrapped messages handed to the error
channel. -/

structure AppDeps where
  producerInit : Option String
  passErrs : List String

/-- appRun (current iteration): on producer failure return the wrapped
error; otherwise forward every pass error to the error channel and
return nil. -/
def appRun (interval : Nat) (deps : AppDeps) : Option String × List String :=
  match deps.producerInit with
  | some e => (some ("Failed to start kafka producer: " ++ e), [])
  | none =>
    (none,
      deps.passErrs.map (fun e =>
        (if interval = 0 then "One time feeds processing failed: "
         else "Periodic feeds processing failed: ") ++ e))

/-- main: exit code 1 iff appRun returned a non-nil error, else 0. -/
def mainExitCode (r : Option String) : Nat := if r.isSome then 1 else 0

/-- A periodic run whose loop ended with the termination-signal error. -/
def c6FailedRun : AppDeps :=
  { producerInit := none, passErrs := ["got termination signal. Exiting"] }

/-- A run whose kafka producer could not be built. -/
def c6InitFail : AppDeps := { producerInit := some "connection refused", passErrs := [] }

/-- Claim C6 evaluated where it fails: a periodic run that terminated
with an error (here the termination-signal error runPeriodic returns)
still makes appRun return nil, so the process exits 0; appRun returns a
non-nil error only when the kafka producer cannot be built.  The claim
that appRun returns non-nil in every failure case is contradicted. -/
theorem claim_C6_bug :
    (appRun 5 c6FailedRun).1 = none
    ∧ mainExitCode (appRun 5 c6FailedRun).1 = 0
    ∧ (∀ (interval : Nat) (errs : List String),
        (appRun interval (AppDeps.mk none errs)).1 = none)
    ∧ mainExitCode (appRun 0 c6InitFail).1 = 1 :=
  ⟨rfl, rfl, fun _ _ => rfl, rfl⟩

/-! ## ID validation (heureka.ID.UnmarshalText)

The method trims surrounding space (bytes.TrimSpace, the Unicode
white-space set) and matches the regular expression with anchors, the
class backslash-w dash underscore and the counted repetition 1 to 36;
in Go regexp the Perl class backslash-w is ASCII [0-9A-Za-z_], so the
class is [A-Za-z0-9_-].  On a match the ID is set to the trimmed text,
otherwise an error is returned and the ID is left unset (none here). -/

/-- The Unicode white-space set of unicode.IsSpace, as trimmed by
bytes.TrimSpace. -/
def goSpaceChars : List Char :=
  ['\t', '\n', '\x0b', '\x0c', '\r', ' ', '\u0085', ' ', ' ',
   ' ', ' ', ' ', ' ', ' ', ' ', ' ',
   ' ', ' ', ' ', ' ', ' ', ' ', ' ',
   ' ', '　']

def goIsSpace (c : Char) : Bool := goSpaceChars.contains c

/-- bytes.TrimSpace: drop white space from both ends. -/
def goTrim (l : List Char) : List Char :=
  ((l.dropWhile goIsSpace).reverse.dropWhile goIsSpace).reverse

/-- One character of the regexp class: backslash-w (ASCII alphanumeric
or underscore in Go regexp) or dash or underscore. -/
def goWordChar (c : Char) : Bool := c.isAlphanum || c = '-' || c = '_'

/-- The anchored match of the ID regexp against the trimmed text. -/
def goIDMatch (t : List Char) : Bool :=
  decide (1 ≤ t.length) && decide (t.length ≤ 36) && t.all goWordChar

/-- heureka.ID.UnmarshalText: some trimmed text on a match, none (ID
left unset, error returned) otherwise. -/
def idUnmarshalText (text : List Char) : Option (List Char) :=
  if goIDMatch (goTrim text) then some (goTrim text) else none

/-- The character class of the claim, spelled as ranges. -/
def idClass (c : Char) : Prop :=
  ('A' ≤ c ∧ c ≤ 'Z') ∨ ('a' ≤ c ∧ c ≤ 'z') ∨ ('0' ≤ c ∧ c ≤ '9') ∨ c = '_' ∨ c = '-'

instance (c : Char) : Decidable (idClass c) := by
  unfold idClass
  infer_instance

lemma goWordChar_iff (c : Char) : goWordChar c = true ↔ idClass c := by
  rw [goWordChar, idClass]
  simp only [Char.isAlphanum, Char.isAlpha, Char.isUpper, Char.isLower, Char.isDigit,
    Bool.or_eq_true, Bool.and_eq_true, decide_eq_true_eq, beq_iff_eq]
  tauto

/-- Claim C9: ID unmarshalling accepts an input iff, after trimming
surrounding white space, it is a string of 1 to 36 characters drawn from
[A-Za-z0-9_-]; on acceptance the ID is the trimmed text, otherwise the
method errors and the ID stays unset. -/
theorem claim_C9 (t : List Char) :
    idUnmarshalText t =
      if 1 ≤ (goTrim t).length ∧ (goTrim t).length ≤ 36 ∧ (∀ c ∈ goTrim t, idClass c)
      then some (goTrim t) else none := by
  have hiff : goIDMatch (goTrim t) = true
      ↔ (1 ≤ (goTrim t).length ∧ (goTrim t).length ≤ 36 ∧ (∀ c ∈ goTrim t, idClass c)) := by
    rw [goIDMatch]
    simp only [Bool.and_eq_true, decide_eq_true_eq, List.all_eq_true]
    constructor
    · rintro ⟨⟨h1, h2⟩, h3⟩
      exact ⟨h1, h2, fun c hc => (goWordChar_iff c).mp (h3 c hc)⟩
    · rintro ⟨h1, h2, h3⟩
      exact ⟨⟨h1, h2⟩, fun c hc => (goWordChar_iff c).mpr (h3 c hc)⟩
  rw [idUnmarshalText]
  by_cases h : 1 ≤ (goTrim t).length ∧ (goTrim t).length ≤ 36 ∧ (∀ c ∈ goTrim t, idClass c)
  · rw [if_pos (hiff.mpr h), if_pos h]
  · rw [if_neg (fun hb => h (hiff.mp hb)), if_neg h]

end Feeddo
